import Mathlib

/-!
Verification of the fetch-through cache subsystem of the `mensa` CLI
(`src/cache/mod.rs`, `src/cache/wrapper.rs`, `src/cache/fetchable.rs`,
`src/pagination.rs`) against its natural-language specification.

The Rust code is shallowly embedded: pure functions become Lean functions,
the stateful cache/network interactions are modelled by explicit state
passing over a `Sys` record (cache contents, clock, a script of network
outcomes, a script of cache-write outcomes, and a log of performed
requests).  Behaviour of external crates (`serde_json`, `regex`, `url`,
`chrono`, `reqwest`, `cacache`) is modelled from their documented
semantics at the points where the repository calls into them.
-/

namespace Mensa

/-! ## JSON values (model of `serde_json::Value` as used for cache metadata) -/

/-- Model of `serde_json::Value`, restricted to the variants that can occur
as cache metadata in this program (the serialized `Headers` struct, or
arbitrary junk found in a corrupted cache). -/
inductive Json where
  | null : Json
  | num (n : Nat) : Json
  | str (s : String) : Json
  | obj (fields : List (String × Json)) : Json

/-- First-match lookup of a key in a JSON object's field list. -/
def jGet (fields : List (String × Json)) (key : String) : Option Json :=
  match fields with
  | [] => none
  | (k, v) :: rest => if k = key then some v else jGet rest key

/-! ## The `Headers` struct (`src/cache/mod.rs` lines 63-70) -/

/-- The `Headers` struct from `src/cache/mod.rs`: the typed subset of
response headers the program keeps.  `usize` page numbers become `Nat`. -/
structure Headers where
  etag : Option String
  this_page : Option Nat
  next_page : Option String
  last_page : Option Nat
  deriving DecidableEq, Repr

/-- Serialization of an `Option String` field by serde: `None` becomes
JSON null, `Some s` the JSON string `s`. -/
def optStrToJson : Option String → Json
  | some s => Json.str s
  | none => Json.null

/-- Serialization of an `Option usize` field by serde. -/
def optNatToJson : Option Nat → Json
  | some n => Json.num n
  | none => Json.null

/-- Model of `serde_json::to_value` on `Headers` (the derived `Serialize`
instance): a JSON object listing the fields in declaration order. -/
def headersToJson (h : Headers) : Json :=
  Json.obj [("etag", optStrToJson h.etag), ("this_page", optNatToJson h.this_page),
            ("next_page", optStrToJson h.next_page), ("last_page", optNatToJson h.last_page)]

/-- Decoding of an `Option String` field by the derived serde
`Deserialize`: a missing field or JSON null is `None`, a JSON string is
`Some`, anything else is a deserialization error. -/
def decodeOptStr : Option Json → Option (Option String)
  | none => some none
  | some Json.null => some none
  | some (Json.str s) => some (some s)
  | some _ => none

/-- Decoding of an `Option usize` field by the derived serde
`Deserialize`. -/
def decodeOptNat : Option Json → Option (Option Nat)
  | none => some none
  | some Json.null => some none
  | some (Json.num n) => some (some n)
  | some _ => none

/-- Model of `serde_json::from_value::<Headers>` (the derived
`Deserialize` instance); `none` models a deserialization error. -/
def headersFromJson : Json → Option Headers
  | Json.obj fields =>
    match decodeOptStr (jGet fields "etag") with
    | none => none
    | some etag =>
      match decodeOptNat (jGet fields "this_page") with
      | none => none
      | some thisPage =>
        match decodeOptStr (jGet fields "next_page") with
        | none => none
        | some nextPage =>
          match decodeOptNat (jGet fields "last_page") with
          | none => none
          | some lastPage =>
            some { etag := etag, this_page := thisPage,
                   next_page := nextPage, last_page := lastPage }
  | _ => none

/-! ## Header projection (`impl From<reqwest::header::HeaderMap> for Headers`,
`src/cache/mod.rs` lines 252-291)

A raw response header map is modelled as an association list from
(lowercased, as `reqwest` normalizes header names) header names to
values; a value is `some s` when `HeaderValue::to_str` succeeds with `s`
and `none` when it fails (non-visible-ASCII bytes). -/

/-- Raw response header map: name to (decodable) value. -/
def RawHeaders : Type := List (String × Option String)

/-- Model of `HeaderMap::get`: the first value stored for a name. -/
def hGet (m : RawHeaders) (key : String) : Option (Option String) :=
  match m with
  | [] => none
  | (k, v) :: rest => if k = key then some v else hGet rest key

/-- The literal `; rel="next"` that the regex
`<([^>]*)>; rel="next"` (static `LINK_NEXT_PAGE_RE`, `src/cache/mod.rs`
line 59) requires after the captured URL. -/
def relNextLit : List Char :=
  [';', ' ', 'r', 'e', 'l', '=', '"', 'n', 'e', 'x', 't', '"']

/-- Helper for the regex model: given the characters following a `<`,
match `[^>]*>` — consume characters up to the first `>`, returning the
consumed characters (the capture) and the characters after the `>`.
Returns `none` when no `>` follows. -/
def matchAngle : List Char → Option (List Char × List Char)
  | [] => none
  | c :: rest =>
    if c = '>' then some ([], rest)
    else
      match matchAngle rest with
      | none => none
      | some (url, after) => some (c :: url, after)

/-- Model of `LINK_NEXT_PAGE_RE.captures(s)` followed by taking capture
group 1: the leftmost occurrence of `<([^>]*)>; rel="next"`, returning
the capture.  The regex tries every start position from the left; at a
`<` the greedy `[^>]*` runs to the next `>` (it can match nothing
shorter, since shrinking puts a non-`>` character where `>` is
required), after which the literal tail must follow. -/
def linkNextPage : List Char → Option (List Char)
  | [] => none
  | c :: rest =>
    if c = '<' then
      match matchAngle rest with
      | some (url, after) =>
        if relNextLit.isPrefixOf after then some url else linkNextPage rest
      | none => linkNextPage rest
    else linkNextPage rest

/-- The decimal value of a digit string, accumulated left to right as
Rust's integer `from_str` does. -/
def digitsVal (cs : List Char) : Nat :=
  cs.foldl (fun acc c => acc * 10 + (c.toNat - 48)) 0

/-- Model of `str::parse::<usize>()` (Rust's `from_str` for unsigned
integers, on the 64-bit targets this program builds for): an optional
single leading `+`, then one or more ASCII digits, failing on overflow
above `usize::MAX = 2^64 - 1`.  Rust checks overflow step by step with
`checked_mul`/`checked_add`, which for an all-digit string fails exactly
when the full decimal value exceeds the maximum, since every
intermediate accumulator value is bounded by the final value. -/
def parseUsize (s : String) : Option Nat :=
  let cs :=
    match s.data with
    | '+' :: rest => rest
    | cs => cs
  if cs = [] then none
  else if cs.all Char.isDigit then
    if digitsVal cs < 18446744073709551616 then some (digitsVal cs) else none
  else none

/-- Model of the `From<reqwest::header::HeaderMap>` impl for `Headers`
(`src/cache/mod.rs` lines 252-291): best-effort extraction of the four
fields.  `ETAG` and `LINK` are the lowercase names `"etag"` and
`"link"`. -/
def headersFromMap (m : RawHeaders) : Headers :=
  { etag := (hGet m "etag").bind (fun raw => raw),
    this_page := (hGet m "x-current-page").bind (fun raw =>
      raw.bind (fun utf8 => parseUsize utf8)),
    next_page := (hGet m "link").bind (fun raw =>
      raw.bind (fun utf8 => (linkNextPage utf8.data).map (fun cs => String.mk cs))),
    last_page := (hGet m "x-total-pages").bind (fun raw =>
      raw.bind (fun utf8 => parseUsize utf8)) }

/-! ## Freshness (`is_fresh`, `src/cache/mod.rs` lines 236-241)

`cacache::Metadata.time` is milliseconds since the epoch.  The code
reconstructs the write instant with
`chrono::Utc.timestamp((age_ms / 1000) as i64, (age_ms % 1000) as u32)`;
the second argument of `TimeZone::timestamp` is NANOseconds, so the
millisecond remainder lands in the nanosecond field.  Instants and
durations are modelled in integer nanoseconds (`chrono`'s internal
precision). -/

/-- The write instant reconstructed by `is_fresh`, in nanoseconds:
`timestamp(ms / 1000, ms % 1000)`. -/
def cacheAgeNs (timeMs : Nat) : Int :=
  ((timeMs / 1000 : Nat) : Int) * 1000000000 + ((timeMs % 1000 : Nat) : Int)

/-- Model of `is_fresh(meta, local_ttl)` (`src/cache/mod.rs` lines
236-241): `now - cache_age < *local_ttl`, with `now` in nanoseconds since
the epoch, the entry write time in milliseconds (as stored by cacache),
and the TTL in nanoseconds. -/
def is_fresh (nowNs : Int) (timeMs : Nat) (ttlNs : Int) : Bool :=
  decide (nowNs - cacheAgeNs timeMs < ttlNs)

/-- Modelled from the spec: the freshness test as the specification
states it, `now - entry.written_at < ttl`, all three quantities in
milliseconds.  Used only to exhibit the divergence of `is_fresh` from
this statement. -/
def is_fresh_spec_model (nowMs : Nat) (timeMs : Nat) (ttlMs : Int) : Bool :=
  decide ((nowMs : Int) - (timeMs : Int) < ttlMs)

/-! ## URL normalization (`Url::parse(url)?.as_ref()`, `src/cache/mod.rs`
lines 101-104)

The cache key is the URL parsed by the `url` crate (WHATWG URL standard)
and re-serialized.  The model covers the shape of every URL this program
fetches: `http`/`https`, no userinfo, no fragment, no percent-encoding
and no dot-segments in the path, port written without leading zeros.
WHATWG normalization on this fragment of URLs lowercases the scheme and
host, drops a default port, turns an empty path into `/` and keeps the
query verbatim (it does NOT reorder query parameters). -/

/-- Split a character list at the first character satisfying `stop`:
returns the prefix before it and the remainder starting with it. -/
def takeUntil (stop : Char → Bool) : List Char → List Char × List Char
  | [] => ([], [])
  | c :: rest =>
    if stop c then ([], c :: rest)
    else
      let p := takeUntil stop rest
      (c :: p.1, p.2)

/-- ASCII lowercasing, as WHATWG host/scheme normalization performs it. -/
def asciiLower (c : Char) : Char :=
  if 65 ≤ c.toNat ∧ c.toNat ≤ 90 then Char.ofNat (c.toNat + 32) else c

/-- Structured form of a parsed URL. -/
structure UrlParts where
  scheme : List Char
  host : List Char
  port : Option (List Char)
  path : List Char
  query : Option (List Char)
  deriving DecidableEq

/-- Model of `url::Url::parse` on the URL fragment described above;
`none` models a parse error (`Error::InternalUrlError` in `fetch`). -/
def parseUrl (cs : List Char) : Option UrlParts :=
  let p1 := takeUntil (fun c => c = ':') cs
  match p1.2 with
  | ':' :: '/' :: '/' :: rest2 =>
    let scheme := p1.1.map asciiLower
    if scheme = "http".data ∨ scheme = "https".data then
      let p2 := takeUntil (fun c => c = '/' ∨ c = '?') rest2
      let p3 := takeUntil (fun c => c = ':') p2.1
      let host := p3.1.map asciiLower
      if host = [] then none
      else
        let portRes : Option (Option (List Char)) :=
          match p3.2 with
          | [] => some none
          | _ :: portDigits =>
            if portDigits = [] then some none
            else if portDigits.all Char.isDigit then some (some portDigits)
            else none
        match portRes with
        | none => none
        | some portRaw =>
          let port : Option (List Char) :=
            match portRaw with
            | none => none
            | some d =>
              if scheme = "http".data ∧ d = "80".data then none
              else if scheme = "https".data ∧ d = "443".data then none
              else some d
          let p4 := takeUntil (fun c => c = '?') p2.2
          let path := if p4.1 = [] then ['/'] else p4.1
          let query : Option (List Char) :=
            match p4.2 with
            | '?' :: q => some q
            | _ => none
          some { scheme := scheme, host := host, port := port, path := path, query := query }
    else none
  | _ => none

/-- Model of `Url::as_ref` (re-serialization of a parsed URL). -/
def serializeUrl (u : UrlParts) : List Char :=
  u.scheme ++ [':', '/', '/'] ++ u.host ++
    (match u.port with
     | none => []
     | some d => ':' :: d) ++
    u.path ++
    (match u.query with
     | none => []
     | some q => '?' :: q)

/-- The cache key derived from a URL: parse and re-serialize. -/
def normalizeUrl (cs : List Char) : Option (List Char) :=
  (parseUrl cs).map serializeUrl

/-- String-level wrapper of `normalizeUrl`. -/
def normalizeUrlS (s : String) : Option String :=
  (normalizeUrl s.data).map (fun cs => String.mk cs)

/-- The query component of a serialized URL: everything after the first
`?`, if any.  Used to state what the cache key preserves. -/
def queryComponent (cs : List Char) : Option (List Char) :=
  match (takeUntil (fun c => c = '?') cs).2 with
  | '?' :: q => some q
  | _ => none

/-! ## The error type (`src/error.rs`), restricted to the variants the
cache subsystem produces. -/

/-- The `Error` enum of `src/error.rs` (cache-relevant variants).  The
`String` arguments carry the same context strings as the source. -/
inductive Err where
  | reqwest : Err
  | serializing (ctx : String) : Err
  | deserializing (ctx : String) : Err
  | cache (ctx : String) : Err
  | io (ctx : String) : Err
  | internalUrlError : Err
  | nonSuccessStatusCode (url : String) (status : Nat) : Err
  | decodingUtf8 : Err
  deriving DecidableEq, Repr

/-! ## The cache and network state (`src/cache/wrapper.rs` and the
`reqwest` client)

A cache entry models a `cacache` entry: the write timestamp in
milliseconds (`Metadata.time`), the metadata JSON blob
(`Metadata.metadata`), and the stored content.  `payload = some text`
means `read_hash_sync` + `String::from_utf8` succeed with `text`;
`payload = none` models a missing/corrupt/non-UTF-8 content blob.
`metaReadable = false` models `cacache::metadata_sync` itself failing
for this key (corrupted index). -/

/-- One cache entry (model of a `cacache` entry for one key). -/
structure Entry where
  time : Nat
  metadata : Json
  payload : Option String
  metaReadable : Bool

/-- A performed HTTP GET: the requested URL and the `If-None-Match`
header value, when one was set. -/
structure Req where
  url : String
  ifNoneMatch : Option String
  deriving DecidableEq, Repr

/-- Model of a `reqwest::blocking::Response`: final URL, status code,
raw headers, and the body (`none` models `Response::text()` failing). -/
structure Response where
  url : String
  status : Nat
  headers : RawHeaders
  body : Option String

/-- Outcome of one network send: a connection-level failure
(`Error::Reqwest`) or a response. -/
inductive NetOutcome where
  | transport : NetOutcome
  | response (r : Response) : NetOutcome

/-- The world state threaded through the embedded functions: the cache
contents, the clock (nanoseconds since the epoch), a script of network
outcomes consumed in order, a script of cache-write outcomes consumed in
order (an empty script means every write succeeds), and the log of
performed requests. -/
structure Sys where
  cache : List (String × Entry)
  nowNs : Nat
  net : List NetOutcome
  writes : List Bool
  log : List Req

/-- First-match lookup in the cache (one entry per key). -/
def cacheLookup (cache : List (String × Entry)) (key : String) : Option Entry :=
  match cache with
  | [] => none
  | (k, e) :: rest => if k = key then some e else cacheLookup rest key

/-- Overwriting insert into the cache (later entries shadow earlier
ones under first-match lookup). -/
def cacheInsert (cache : List (String × Entry)) (key : String) (e : Entry) :
    List (String × Entry) :=
  (key, e) :: cache

/-- Milliseconds from nanoseconds: the entry timestamp a write records
(`Utc::now().timestamp_millis()` / cacache's write clock). -/
def msOfNs (ns : Nat) : Nat := ns / 1000000

/-- The entry a successful `write_cache(headers, url, text)` stores:
current time in milliseconds, the serialized headers as metadata, the
UTF-8 text as content. -/
def mkEntry (nowNs : Nat) (headers : Headers) (text : String) : Entry :=
  { time := msOfNs nowNs, metadata := headersToJson headers,
    payload := some text, metaReadable := true }

/-- Model of `wrapper::write_cache` (`src/cache/wrapper.rs` lines
18-33): serialize the headers as metadata and persist the text under the
key.  A scripted write failure leaves the cache unchanged and returns a
cache error. -/
def write_cache (headers : Headers) (url : String) (text : String) (s : Sys) :
    Except Err Unit × Sys :=
  match s.writes with
  | [] =>
    (Except.ok (),
     { s with cache := cacheInsert s.cache url (mkEntry s.nowNs headers text) })
  | b :: rest =>
    if b then
      (Except.ok (),
       { s with writes := rest,
                cache := cacheInsert s.cache url (mkEntry s.nowNs headers text) })
    else (Except.error (Err.cache "commiting write"), { s with writes := rest })

/-- Model of `wrapper::read_cache_meta` (`src/cache/wrapper.rs` lines
40-42): look up the entry metadata for a key. -/
def read_cache_meta (url : String) (s : Sys) : Except Err (Option Entry) :=
  match cacheLookup s.cache url with
  | none => Except.ok none
  | some e =>
    if e.metaReadable then Except.ok (some e)
    else Except.error (Err.cache "reading metadata")

/-- Model of `wrapper::read_cache` (`src/cache/wrapper.rs` lines 35-38)
combined with the UTF-8 decoding done by its caller: read the content
blob referenced by the metadata. -/
def read_cache (e : Entry) : Except Err String :=
  match e.payload with
  | some text => Except.ok text
  | none => Except.error (Err.cache "reading value")

/-- Model of `wrapper::send_request`: consume the next scripted network
outcome and log the performed request.  An exhausted script behaves as a
transport error. -/
def send_request (url : String) (etag : Option String) (s : Sys) :
    Except Err Response × Sys :=
  let s1 := { s with log := s.log ++ [Req.mk url etag] }
  match s1.net with
  | [] => (Except.error Err.reqwest, s1)
  | NetOutcome.transport :: rest => (Except.error Err.reqwest, { s1 with net := rest })
  | NetOutcome.response r :: rest => (Except.ok r, { s1 with net := rest })

/-! ## The fetch orchestrator (`src/cache/mod.rs` lines 96-250) -/

/-- `TextAndHeaders` (`src/cache/mod.rs` line 53). -/
def TextAndHeaders : Type := String × Headers

/-- The `CacheResult` enum (`src/cache/mod.rs` lines 73-81). -/
inductive CacheResult where
  | miss : CacheResult
  | stale (h : Headers) (meta : Entry) : CacheResult
  | hit (th : TextAndHeaders) : CacheResult

/-- Model of `to_text_and_headers` (`src/cache/mod.rs` lines 244-250);
the UTF-8 step is already folded into `read_cache`, so only the header
deserialization remains. -/
def to_text_and_headers (text : String) (meta : Json) : Except Err TextAndHeaders :=
  match headersFromJson meta with
  | some headers => Except.ok (text, headers)
  | none =>
    Except.error (Err.deserializing "reading headers from cache. Try clearing the cache.")

/-- Model of `headers_from_metadata` (`src/cache/mod.rs` lines 230-233). -/
def headers_from_metadata (e : Entry) : Except Err Headers :=
  match headersFromJson e.metadata with
  | some headers => Except.ok headers
  | none => Except.error (Err.deserializing "loading headers from cache")

/-- Model of `try_load_cache` (`src/cache/mod.rs` lines 145-165). -/
def try_load_cache (url : String) (ttl : Int) (s : Sys) : Except Err CacheResult :=
  match read_cache_meta url s with
  | Except.error e => Except.error e
  | Except.ok none => Except.ok CacheResult.miss
  | Except.ok (some meta) =>
    if is_fresh (s.nowNs : Int) meta.time ttl then
      match read_cache meta with
      | Except.error e => Except.error e
      | Except.ok raw =>
        match to_text_and_headers raw meta.metadata with
        | Except.error e => Except.error e
        | Except.ok th => Except.ok (CacheResult.hit th)
    else
      match headers_from_metadata meta with
      | Except.error e => Except.error e
      | Except.ok oldHeaders => Except.ok (CacheResult.stale oldHeaders meta)

/-- Model of `update_cache_from_response` (`src/cache/mod.rs` lines
211-217): project the headers, extract the body text, write both to the
cache (write errors propagate), and return them.  Note the write key is
the RESPONSE's final URL. -/
def update_cache_from_response (resp : Response) (s : Sys) :
    Except Err TextAndHeaders × Sys :=
  let headers := headersFromMap resp.headers
  match resp.body with
  | none => (Except.error Err.reqwest, s)
  | some text =>
    match write_cache headers resp.url text s with
    | (Except.error e, s1) => (Except.error e, s1)
    | (Except.ok _, s1) => (Except.ok (text, headers), s1)

/-- Model of `touch_and_load_cache` (`src/cache/mod.rs` lines 220-227):
re-read the cached payload, re-write it under the new headers with the
write failure logged and IGNORED (`log_warn`), and return payload plus
new headers. -/
def touch_and_load_cache (url : String) (meta : Entry) (headers : Headers) (s : Sys) :
    Except Err TextAndHeaders × Sys :=
  match read_cache meta with
  | Except.error e => (Except.error e, s)
  | Except.ok raw =>
    match to_text_and_headers raw meta.metadata with
    | Except.error e => (Except.error e, s)
    | Except.ok th =>
      let s1 := (write_cache headers url th.1 s).2
      (Except.ok (th.1, headers), s1)

/-- Model of `get_and_update_cache` (`src/cache/mod.rs` lines 173-206):
send a GET (with `If-None-Match` when an etag is given); on 304 with
known metadata touch the cache, on 2xx update the cache from the
response, otherwise fail with `NonSuccessStatusCode(url, status)`. -/
def get_and_update_cache (url : String) (etag : Option String) (meta : Option Entry)
    (s : Sys) : Except Err TextAndHeaders × Sys :=
  match send_request url etag s with
  | (Except.error e, s1) => (Except.error e, s1)
  | (Except.ok resp, s1) =>
    match meta with
    | some m =>
      if resp.status = 304 then
        touch_and_load_cache url m (headersFromMap resp.headers) s1
      else if 200 ≤ resp.status ∧ resp.status ≤ 299 then
        update_cache_from_response resp s1
      else (Except.error (Err.nonSuccessStatusCode url resp.status), s1)
    | none =>
      if 200 ≤ resp.status ∧ resp.status ≤ 299 then
        update_cache_from_response resp s1
      else (Except.error (Err.nonSuccessStatusCode url resp.status), s1)

/-- Model of `fetch` (`src/cache/mod.rs` lines 96-140), with the
caller-supplied `map` closure left off (callers apply it to the returned
text and headers).  Normalize the URL into the cache key, probe the
cache, and dispatch on hit/miss/stale/probe-error. -/
def fetch (rawUrl : String) (ttl : Int) (s : Sys) : Except Err TextAndHeaders × Sys :=
  match normalizeUrlS rawUrl with
  | none => (Except.error Err.internalUrlError, s)
  | some url =>
    match try_load_cache url ttl s with
    | Except.ok (CacheResult.hit th) => (Except.ok th, s)
    | Except.ok CacheResult.miss => get_and_update_cache url none none s
    | Except.ok (CacheResult.stale oldHeaders meta) =>
      match get_and_update_cache url oldHeaders.etag (some meta) s with
      | (Except.ok th, s1) => (Except.ok th, s1)
      | (Except.error _, s1) => get_and_update_cache url none none s1
    | Except.error _ => get_and_update_cache url none none s

/-! ## Paginated retrieval (`src/pagination.rs`)

`Iterator::next` for `PaginatedList<T>` calls `cache::fetch` with a
closure deserializing the page into a list plus the three pagination
headers.  That call is abstracted as an oracle
`F : url → ttl → Except Err PageData`, and items are represented by
`Nat`. -/

/-- What the closure passed to `cache::fetch` by `PaginatedList::next`
returns: the deserialized list and `this_page`/`next_page`/`last_page`. -/
structure PageData where
  val : List Nat
  this_page : Option Nat
  next_page : Option String
  last_page : Option Nat

/-- The `PaginatedList` iterator state (`src/pagination.rs` lines
33-40). -/
structure PaginatedList where
  next_page : Option String
  ttl : Int

/-- Model of `Iterator::next` for `PaginatedList` (`src/pagination.rs`
lines 75-102): take the pending URL (leaving none), fetch it through
the oracle, and re-arm `next_page` only on success with
`this_page.unwrap_or_default() < last_page.unwrap_or_default()` and a
non-empty batch. -/
def PaginatedList.next (F : String → Int → Except Err PageData) (pl : PaginatedList) :
    Option (Except Err (List Nat)) × PaginatedList :=
  match pl.next_page with
  | none => (none, pl)
  | some curr =>
    let pl1 : PaginatedList := { pl with next_page := none }
    match F curr pl.ttl with
    | Except.ok pd =>
      let pl2 :=
        if pd.this_page.getD 0 < pd.last_page.getD 0 then
          if pd.val = [] then pl1 else { pl1 with next_page := pd.next_page }
        else pl1
      (some (Except.ok pd.val), pl2)
    | Except.error e => (some (Except.error e), pl1)

/-! ## `Fetchable` (`src/cache/fetchable.rs`) -/

/-- The `Fetchable<T>` enum (`src/cache/fetchable.rs` lines 5-12). -/
inductive Fetchable (T : Type) where
  | none : Fetchable T
  | fetched (value : T) : Fetchable T

/-- Model of `Fetchable::assume_fetched` (`src/cache/fetchable.rs`
lines 50-55); `Option.none` models the panic branch. -/
def Fetchable.assume_fetched {T : Type} : Fetchable T → Option T
  | Fetchable.fetched value => some value
  | Fetchable.none => Option.none

/-- Model of `Fetchable::fetch` (`src/cache/fetchable.rs` lines 19-32):
return the fetched value, or run the closure, store a success, and read
it back through `assume_fetched`.  The result pairs the returned
`Result` with the updated state; an outer `Option.none` models reaching
the panic inside `assume_fetched`. -/
def Fetchable.fetch {T : Type} (v : Fetchable T) (f : Unit → Except Err T) :
    Option (Except Err T × Fetchable T) :=
  match v with
  | Fetchable.fetched value => some (Except.ok value, Fetchable.fetched value)
  | Fetchable.none =>
    match f () with
    | Except.error e => some (Except.error e, Fetchable.none)
    | Except.ok value =>
      let v1 : Fetchable T := Fetchable.fetched value
      match v1.assume_fetched with
      | some r => some (Except.ok r, v1)
      | Option.none => Option.none

/-! ## Helper lemmas -/

/-- Deserializing the serialized form of a `Headers` value gives it back. -/
theorem headersToJson_roundtrip (h : Headers) :
    headersFromJson (headersToJson h) = some h := by
  obtain ⟨e, t, n, l⟩ := h
  cases e <;> cases t <;> cases n <;> cases l <;> rfl

/-- `matchAngle` only succeeds on a `>`-free capture followed by `>`. -/
theorem matchAngle_sound (cs url after : List Char)
    (h : matchAngle cs = some (url, after)) :
    cs = url ++ '>' :: after ∧ '>' ∉ url := by
  induction cs generalizing url after with
  | nil => simp [matchAngle] at h
  | cons c rest ih =>
    by_cases hc : c = '>'
    · subst hc
      simp [matchAngle] at h
      obtain ⟨h1, h2⟩ := h
      subst h1
      subst h2
      simp
    · simp only [matchAngle, if_neg hc] at h
      cases hm : matchAngle rest with
      | none => rw [hm] at h; simp at h
      | some p =>
        obtain ⟨u, a⟩ := p
        rw [hm] at h
        simp at h
        obtain ⟨h1, h2⟩ := h
        subst h1
        subst h2
        obtain ⟨hrest, hnot⟩ := ih u a hm
        subst hrest
        refine ⟨by simp, ?_⟩
        simp only [List.mem_cons, not_or]
        exact ⟨fun hh => hc hh.symm, hnot⟩

/-- `matchAngle` finds the `>` that terminates a `>`-free capture. -/
theorem matchAngle_complete (url after : List Char) (h : '>' ∉ url) :
    matchAngle (url ++ '>' :: after) = some (url, after) := by
  induction url with
  | nil => simp [matchAngle]
  | cons c u ih =>
    have hc : c ≠ '>' := by
      intro hcontra
      exact h (by simp [hcontra])
    have hu : '>' ∉ u := by
      intro hcontra
      exact h (by simp [hcontra])
    simp only [List.cons_append, matchAngle, if_neg hc, List.append_eq, ih hu]

/-- Soundness of the `Link`-header scanner: a returned capture really is
bracketed, `>`-free and followed by the literal `; rel="next"`. -/
theorem linkNextPage_sound (cs url : List Char) (h : linkNextPage cs = some url) :
    ∃ pre post, cs = pre ++ '<' :: (url ++ '>' :: (relNextLit ++ post)) ∧ '>' ∉ url := by
  induction cs with
  | nil => simp [linkNextPage] at h
  | cons c rest ih =>
    by_cases hc : c = '<'
    · subst hc
      simp only [linkNextPage, eq_self_iff_true, ite_true] at h
      cases hm : matchAngle rest with
      | none =>
        rw [hm] at h
        obtain ⟨pre, post, hrest, hnot⟩ := ih h
        exact ⟨'<' :: pre, post, by simp [hrest], hnot⟩
      | some p =>
        obtain ⟨u, a⟩ := p
        rw [hm] at h
        simp only [] at h
        by_cases hp : relNextLit.isPrefixOf a
        · rw [if_pos hp] at h
          obtain rfl : u = url := by
            injection h
          obtain ⟨hrest, hnot⟩ := matchAngle_sound rest u a hm
          obtain ⟨t, ht⟩ := List.isPrefixOf_iff_prefix.mp hp
          refine ⟨[], t, ?_, hnot⟩
          simp [hrest, ← ht]
        · rw [if_neg hp] at h
          obtain ⟨pre, post, hrest, hnot⟩ := ih h
          exact ⟨'<' :: pre, post, by simp [hrest], hnot⟩
    · simp only [linkNextPage, if_neg hc] at h
      obtain ⟨pre, post, hrest, hnot⟩ := ih h
      exact ⟨c :: pre, post, by simp [hrest], hnot⟩

/-- Completeness of the `Link`-header scanner: whenever the pattern
occurs, a capture is produced. -/
theorem linkNextPage_complete (pre url post : List Char) (h : '>' ∉ url) :
    (linkNextPage (pre ++ '<' :: (url ++ '>' :: (relNextLit ++ post)))).isSome = true := by
  induction pre with
  | nil =>
    simp only [List.nil_append, linkNextPage, if_pos rfl,
      matchAngle_complete url (relNextLit ++ post) h]
    rw [if_pos (List.isPrefixOf_iff_prefix.mpr (List.prefix_append relNextLit post))]
    rfl
  | cons p pre' ih =>
    by_cases hp : p = '<'
    · subst hp
      simp only [List.cons_append, linkNextPage, eq_self_iff_true, ite_true, List.append_eq]
      cases hm : matchAngle (pre' ++ '<' :: (url ++ '>' :: (relNextLit ++ post))) with
      | none => simpa using ih
      | some q =>
        obtain ⟨u, a⟩ := q
        cases hq : relNextLit.isPrefixOf a with
        | true => simp [hq]
        | false => simpa [hq] using ih
    · simp only [List.cons_append, linkNextPage, if_neg hp, List.append_eq]
      exact ih

/-- Elements of the prefix returned by `takeUntil` fail the stop
predicate and come from the input. -/
theorem takeUntil_fst_mem (stop : Char → Bool) (cs : List Char) :
    ∀ c ∈ (takeUntil stop cs).1, stop c = false ∧ c ∈ cs := by
  induction cs with
  | nil => simp [takeUntil]
  | cons d rest ih =>
    by_cases hd : stop d
    · simp [takeUntil, hd]
    · intro c hc
      simp [takeUntil, hd] at hc
      rcases hc with rfl | hc
      · simp [hd]
      · obtain ⟨h1, h2⟩ := ih c hc
        exact ⟨h1, by simp [h2]⟩

/-- `takeUntil` on a stop-free list consumes it whole. -/
theorem takeUntil_no_stop (stop : Char → Bool) (xs : List Char)
    (h : ∀ c ∈ xs, stop c = false) : takeUntil stop xs = (xs, []) := by
  induction xs with
  | nil => rfl
  | cons d rest ih =>
    have hd : stop d = false := h d (by simp)
    simp [takeUntil, hd, ih (fun c hc => h c (by simp [hc]))]

/-- `takeUntil` splits exactly at the first stop character. -/
theorem takeUntil_append (stop : Char → Bool) (xs : List Char) (d : Char)
    (q : List Char) (h : ∀ c ∈ xs, stop c = false) (hd : stop d = true) :
    takeUntil stop (xs ++ d :: q) = (xs, d :: q) := by
  induction xs with
  | nil => simp [takeUntil, hd]
  | cons x rest ih =>
    have hx : stop x = false := h x (by simp)
    simp [takeUntil, hx, ih (fun c hc => h c (by simp [hc]))]

/-- A `?`-free list has no query component. -/
theorem queryComponent_no_q (xs : List Char) (h : ∀ c ∈ xs, c ≠ '?') :
    queryComponent xs = none := by
  have ht : takeUntil (fun c => c = '?') xs = (xs, []) := by
    apply takeUntil_no_stop
    intro c hc
    simp [h c hc]
  simp [queryComponent, ht]

/-- The query component after a `?`-free prefix is the tail after the
`?`. -/
theorem queryComponent_append_q (xs q : List Char) (h : ∀ c ∈ xs, c ≠ '?') :
    queryComponent (xs ++ '?' :: q) = some q := by
  have ht : takeUntil (fun c => c = '?') (xs ++ '?' :: q) = (xs, '?' :: q) := by
    apply takeUntil_append
    · intro c hc
      simp [h c hc]
    · simp
  simp [queryComponent, ht]

/-- `Char.ofNat` below the surrogate range keeps the code point. -/
theorem charOfNat_toNat (m : Nat) (h : m < 55296) : (Char.ofNat m).toNat = m := by
  rw [Char.ofNat, dif_pos (Or.inl h)]
  rfl

/-- ASCII lowercasing never produces `?` from a non-`?` character. -/
theorem asciiLower_ne_qmark (c : Char) (h : c ≠ '?') : asciiLower c ≠ '?' := by
  unfold asciiLower
  split
  · rename_i hAZ
    intro heq
    have h1 : (Char.ofNat (c.toNat + 32)).toNat = c.toNat + 32 :=
      charOfNat_toNat _ (by omega)
    rw [heq] at h1
    have h63 : ('?' : Char).toNat = 63 := rfl
    rw [h63] at h1
    omega
  · exact h

/-- A decimal digit is not `?`. -/
theorem isDigit_ne_qmark (c : Char) (h : c.isDigit = true) : c ≠ '?' := by
  intro heq
  subst heq
  exact absurd h (by decide)

/-- Every successfully parsed URL has a `http`/`https` scheme and a
`?`-free host, port and path. -/
theorem parseUrl_inv (cs : List Char) (p : UrlParts) (h : parseUrl cs = some p) :
    (p.scheme = "http".data ∨ p.scheme = "https".data) ∧
    (∀ c ∈ p.host, c ≠ '?') ∧
    (∀ d, p.port = some d → ∀ c ∈ d, c ≠ '?') ∧
    (∀ c ∈ p.path, c ≠ '?') := by
  simp only [parseUrl] at h
  split at h
  case h_2 => exact absurd h (by simp)
  rename_i rest2 hsep
  split at h
  case isFalse => exact absurd h (by simp)
  rename_i hscheme
  split at h
  case isTrue => exact absurd h (by simp)
  rename_i hhost
  split at h
  case h_1 => exact absurd h (by simp)
  rename_i portRaw hport
  rw [Option.some_inj] at h
  subst h
  refine ⟨hscheme, ?_, ?_, ?_⟩
  · intro c hc
    obtain ⟨d, hd, rfl⟩ := List.mem_map.mp hc
    apply asciiLower_ne_qmark
    obtain ⟨_, hmem⟩ := takeUntil_fst_mem _ _ d hd
    obtain ⟨hstop, _⟩ := takeUntil_fst_mem _ _ d hmem
    intro heq
    subst heq
    simp at hstop
  · intro d hd c hc
    dsimp only at hd
    cases hpr : portRaw with
    | none => rw [hpr] at hd; simp at hd
    | some d0 =>
      simp only [hpr] at hd hport
      split at hd
      · simp at hd
      · split at hd
        · simp at hd
        · obtain rfl : d0 = d := by injection hd
          split at hport
          · exact absurd hport (by simp)
          · split at hport
            · exact absurd hport (by simp)
            · split at hport
              · rename_i hall
                have h1 := Option.some_inj.mp (Option.some_inj.mp hport)
                rw [h1] at hall
                exact isDigit_ne_qmark c (List.all_eq_true.mp hall c hc)
              · exact absurd hport (by simp)
  · intro c hc
    dsimp only at hc
    split at hc
    · simp at hc
      subst hc
      decide
    · obtain ⟨hstop, _⟩ := takeUntil_fst_mem _ _ c hc
      intro heq
      subst heq
      simp at hstop

/-- The query component of a serialized URL whose other components are
`?`-free is exactly its `query` field. -/
theorem queryComponent_serialize (p : UrlParts)
    (hs : ∀ c ∈ p.scheme, c ≠ '?') (hh : ∀ c ∈ p.host, c ≠ '?')
    (hp : ∀ d, p.port = some d → ∀ c ∈ d, c ≠ '?')
    (hpa : ∀ c ∈ p.path, c ≠ '?') :
    queryComponent (serializeUrl p) = p.query := by
  have hfree : ∀ c ∈ p.scheme ++ [':', '/', '/'] ++ p.host ++
      (match p.port with
       | none => []
       | some d => ':' :: d) ++ p.path, c ≠ '?' := by
    intro c hc
    simp only [List.mem_append] at hc
    rcases hc with ((((hc | hc) | hc) | hc) | hc)
    · exact hs c hc
    · simp at hc
      rcases hc with rfl | rfl
      · decide
      · decide
    · exact hh c hc
    · cases hpo : p.port with
      | none =>
        rw [hpo] at hc
        simp at hc
      | some d =>
        rw [hpo] at hc
        simp only [List.mem_cons] at hc
        rcases hc with rfl | hc
        · decide
        · exact hp d hpo c hc
    · exact hpa c hc
  cases hq : p.query with
  | none =>
    have hser : serializeUrl p = p.scheme ++ [':', '/', '/'] ++ p.host ++
        (match p.port with
         | none => []
         | some d => ':' :: d) ++ p.path ++ [] := by
      simp only [serializeUrl, hq]
    rw [hser, List.append_nil]
    exact queryComponent_no_q _ hfree
  | some q =>
    have hser : serializeUrl p = (p.scheme ++ [':', '/', '/'] ++ p.host ++
        (match p.port with
         | none => []
         | some d => ':' :: d) ++ p.path) ++ '?' :: q := by
      simp only [serializeUrl, hq]
    rw [hser]
    exact queryComponent_append_q _ q hfree

/-- `send_request` appends exactly the performed request to the log. -/
theorem send_request_log (url : String) (etag : Option String) (s : Sys) :
    (send_request url etag s).2.log = s.log ++ [Req.mk url etag] := by
  simp only [send_request]
  cases s.net with
  | nil => rfl
  | cons o rest => cases o <;> rfl

/-- `write_cache` never touches the request log. -/
theorem write_cache_log (h : Headers) (url text : String) (s : Sys) :
    (write_cache h url text s).2.log = s.log := by
  simp only [write_cache]
  cases s.writes with
  | nil => rfl
  | cons b rest => cases b <;> rfl

/-- `update_cache_from_response` never touches the request log. -/
theorem update_cache_from_response_log (r : Response) (s : Sys) :
    (update_cache_from_response r s).2.log = s.log := by
  cases hb : r.body with
  | none => simp [update_cache_from_response, hb]
  | some text =>
    have hw := write_cache_log (headersFromMap r.headers) r.url text s
    rcases hwc : write_cache (headersFromMap r.headers) r.url text s with ⟨res, s1⟩
    rw [hwc] at hw
    cases res <;> simp only [update_cache_from_response, hb, hwc] <;> exact hw

/-- `touch_and_load_cache` never touches the request log. -/
theorem touch_and_load_cache_log (url : String) (meta : Entry) (h : Headers) (s : Sys) :
    (touch_and_load_cache url meta h s).2.log = s.log := by
  cases hr : read_cache meta with
  | error e => simp [touch_and_load_cache, hr]
  | ok raw =>
    cases hth : to_text_and_headers raw meta.metadata with
    | error e => simp [touch_and_load_cache, hr, hth]
    | ok th =>
      simp only [touch_and_load_cache, hr, hth]
      exact write_cache_log h url th.1 s

/-- `get_and_update_cache` performs exactly one request: the log grows
by the one GET it sends. -/
theorem get_and_update_cache_log (url : String) (etag : Option String)
    (meta : Option Entry) (s : Sys) :
    (get_and_update_cache url etag meta s).2.log = s.log ++ [Req.mk url etag] := by
  have hsl := send_request_log url etag s
  rcases hsr : send_request url etag s with ⟨res, s1⟩
  rw [hsr] at hsl
  cases res with
  | error e =>
    simp only [get_and_update_cache, hsr]
    exact hsl
  | ok r =>
    cases meta with
    | some m =>
      by_cases h304 : r.status = 304
      · simp only [get_and_update_cache, hsr, if_pos h304]
        rw [touch_and_load_cache_log]
        exact hsl
      · by_cases h2 : 200 ≤ r.status ∧ r.status ≤ 299
        · simp only [get_and_update_cache, hsr, if_neg h304, if_pos h2]
          rw [update_cache_from_response_log]
          exact hsl
        · simp only [get_and_update_cache, hsr, if_neg h304, if_neg h2]
          exact hsl
    | none =>
      by_cases h2 : 200 ≤ r.status ∧ r.status ≤ 299
      · simp only [get_and_update_cache, hsr, if_pos h2]
        rw [update_cache_from_response_log]
        exact hsl
      · simp only [get_and_update_cache, hsr, if_neg h2]
        exact hsl

/-- C3 counterexample: the claim says two logically-identical URLs whose
query parameters are listed in a different order map to the same cache
key.  They do not: the key produced by parse-and-reserialize keeps the
query string verbatim, so `?b=1&a=2` and `?a=2&b=1` give two distinct
(both valid) keys, and a fetch of one cannot hit the entry of the
other. -/
theorem cache_key_query_order_counterexample :
    normalizeUrlS "http://example.com/?b=1&a=2" ≠
      normalizeUrlS "http://example.com/?a=2&b=1" ∧
    normalizeUrlS "http://example.com/?b=1&a=2" = some "http://example.com/?b=1&a=2" ∧
    normalizeUrlS "http://example.com/?a=2&b=1" = some "http://example.com/?a=2&b=1" := by
  refine ⟨?_, rfl, rfl⟩
  decide

/-- C3 amended: the cache key is the URL parsed and re-serialized
(lowercased scheme and host, default port dropped, empty path becoming
`/`), and the query string is preserved verbatim including parameter
order: two parseable URLs receive the same cache key only if their
literal query strings agree, so reordering query parameters yields
distinct keys. -/
theorem cache_key_preserves_query_order (u1 u2 : List Char) (p1 p2 : UrlParts)
    (h1 : parseUrl u1 = some p1) (h2 : parseUrl u2 = some p2)
    (heq : normalizeUrl u1 = normalizeUrl u2) :
    p1.query = p2.query := by
  obtain ⟨hs1, hh1, hp1, hpa1⟩ := parseUrl_inv u1 p1 h1
  obtain ⟨hs2, hh2, hp2, hpa2⟩ := parseUrl_inv u2 p2 h2
  have hsq1 : ∀ c ∈ p1.scheme, c ≠ '?' := by
    rcases hs1 with h | h <;> rw [h] <;> decide
  have hsq2 : ∀ c ∈ p2.scheme, c ≠ '?' := by
    rcases hs2 with h | h <;> rw [h] <;> decide
  have e1 := queryComponent_serialize p1 hsq1 hh1 hp1 hpa1
  have e2 := queryComponent_serialize p2 hsq2 hh2 hp2 hpa2
  have hser : serializeUrl p1 = serializeUrl p2 := by
    have hmap : (parseUrl u1).map serializeUrl = (parseUrl u2).map serializeUrl := heq
    rw [h1, h2] at hmap
    simpa using hmap
  rw [← e1, ← e2, hser]

/-- Witness for C3's amended claim: two spellings of the same URL (one
with uppercase scheme/host and an explicit default port) normalize to
one key, and the theorem applies to give equal query components. -/
theorem cache_key_preserves_query_order_witness :
    (⟨"http".data, ['a', '.', 'd', 'e'], none, ['/', 'x'],
        some ['q', '=', '1']⟩ : UrlParts).query =
      (⟨"http".data, ['a', '.', 'd', 'e'], none, ['/', 'x'],
        some ['q', '=', '1']⟩ : UrlParts).query :=
  cache_key_preserves_query_order "HTTP://A.de:80/x?q=1".data "http://a.de/x?q=1".data
    ⟨"http".data, ['a', '.', 'd', 'e'], none, ['/', 'x'], some ['q', '=', '1']⟩
    ⟨"http".data, ['a', '.', 'd', 'e'], none, ['/', 'x'], some ['q', '=', '1']⟩
    (by decide) (by decide) (by decide)

/-- C8: header projection is a total function of the raw header map:
`etag` is the `etag` value exactly when present and string-decodable;
`this_page`/`last_page` are the `usize`-parsed `x-current-page` /
`x-total-pages` values exactly when present, decodable and numeric
(where numeric is Rust's unsigned `from_str`: an optional leading `+`,
one or more digits, no overflow past `usize::MAX`); `next_page` is the
capture of the pattern `<URL>; rel="next"` in the `link` value exactly
when that header is present, decodable and matching, where matching is
characterized by the existence of a decomposition around a `>`-free
URL; every missing or unparseable field degrades to absent rather than
an error. -/
theorem headers_projection (m : RawHeaders) :
    (∀ s, (headersFromMap m).etag = some s ↔ hGet m "etag" = some (some s)) ∧
    (∀ n, (headersFromMap m).this_page = some n ↔
      ∃ v, hGet m "x-current-page" = some (some v) ∧ parseUsize v = some n) ∧
    (∀ n, (headersFromMap m).last_page = some n ↔
      ∃ v, hGet m "x-total-pages" = some (some v) ∧ parseUsize v = some n) ∧
    (∀ u, (headersFromMap m).next_page = some u ↔
      ∃ v, hGet m "link" = some (some v) ∧
        (linkNextPage v.data).map (fun cs => String.mk cs) = some u) ∧
    (∀ v url, linkNextPage v = some url →
      ∃ pre post, v = pre ++ '<' :: (url ++ '>' :: (relNextLit ++ post)) ∧ '>' ∉ url) ∧
    (∀ v, linkNextPage v = none ↔
      ¬ ∃ pre url post, v = pre ++ '<' :: (url ++ '>' :: (relNextLit ++ post)) ∧ '>' ∉ url) := by
  refine ⟨?_, ?_, ?_, ?_, linkNextPage_sound, ?_⟩
  · intro s
    cases he : hGet m "etag" with
    | none => simp [headersFromMap, he]
    | some v => cases v <;> simp [headersFromMap, he]
  · intro n
    cases he : hGet m "x-current-page" with
    | none => simp [headersFromMap, he]
    | some v => cases v <;> simp [headersFromMap, he]
  · intro n
    cases he : hGet m "x-total-pages" with
    | none => simp [headersFromMap, he]
    | some v => cases v <;> simp [headersFromMap, he]
  · intro u
    cases he : hGet m "link" with
    | none => simp [headersFromMap, he]
    | some v => cases v <;> simp [headersFromMap, he]
  · intro v
    constructor
    · intro hn hmatch
      obtain ⟨pre, url, post, hv, hnot⟩ := hmatch
      have hsome := linkNextPage_complete pre url post hnot
      rw [← hv, hn] at hsome
      simp at hsome
    · intro hnm
      cases hl : linkNextPage v with
      | none => rfl
      | some url =>
        exfalso
        apply hnm
        obtain ⟨pre, post, hv, hnot⟩ := linkNextPage_sound v url hl
        exact ⟨pre, url, post, hv, hnot⟩

/-- Witness for C8: a leading-`+` page number parses (as Rust's
`from_str` does), a numeral above `usize::MAX` is absent, and the
`Link` soundness component applies to a concrete matching value. -/
theorem headers_projection_witness :
    (headersFromMap [("x-current-page", some "+2")]).this_page = some 2 ∧
    ¬ (headersFromMap [("x-total-pages", some "18446744073709551616")]).last_page =
        some 18446744073709551616 ∧
    ∃ pre post,
      ('<' :: 'u' :: '>' :: relNextLit) =
        pre ++ '<' :: (['u'] ++ '>' :: (relNextLit ++ post)) ∧ '>' ∉ ['u'] :=
  ⟨(headers_projection [("x-current-page", some "+2")]).2.1 2 |>.mpr
      ⟨"+2", rfl, by decide⟩,
   fun hcontra =>
     absurd
       ((headers_projection [("x-total-pages", some "18446744073709551616")]).2.2.1
           18446744073709551616 |>.mp hcontra)
       (by
         rintro ⟨v, hv, hp⟩
         simp [hGet] at hv
         subst hv
         revert hp
         decide),
   (headers_projection []).2.2.2.2.1 ('<' :: 'u' :: '>' :: relNextLit) ['u'] rfl⟩

/-- C1: with a fresh, readable cache entry under the normalized URL,
`fetch` returns the cached payload and the cached headers and touches
neither the network nor any state (no request is performed); with no
entry, exactly one unconditional GET is performed: on a 2xx response the
projected headers and the body are written to the cache and returned,
and on a non-2xx response `fetch` fails with
`NonSuccessStatusCode(url, status)`. -/
theorem fetch_hit_and_miss (s : Sys) (rawUrl url : String) (ttl : Int)
    (hn : normalizeUrlS rawUrl = some url) :
    (∀ e text h, cacheLookup s.cache url = some e → e.metaReadable = true →
      is_fresh (s.nowNs : Int) e.time ttl = true → e.payload = some text →
      headersFromJson e.metadata = some h →
      fetch rawUrl ttl s = (Except.ok (text, h), s)) ∧
    (∀ r netRest, cacheLookup s.cache url = none →
      s.net = NetOutcome.response r :: netRest → s.writes = [] →
      (∀ text, 200 ≤ r.status → r.status ≤ 299 → r.body = some text →
        fetch rawUrl ttl s =
          (Except.ok (text, headersFromMap r.headers),
           { s with net := netRest,
                    log := s.log ++ [Req.mk url none],
                    cache := cacheInsert s.cache r.url
                      (mkEntry s.nowNs (headersFromMap r.headers) text) })) ∧
      (¬ (200 ≤ r.status ∧ r.status ≤ 299) →
        fetch rawUrl ttl s =
          (Except.error (Err.nonSuccessStatusCode url r.status),
           { s with net := netRest, log := s.log ++ [Req.mk url none] }))) := by
  constructor
  · intro e text h hl hm hf hp hh
    simp [fetch, hn, try_load_cache, read_cache_meta, hl, hm, hf, read_cache, hp,
      to_text_and_headers, hh]
  · intro r netRest hl hnet hw
    constructor
    · intro text h200 h299 hbody
      simp only [fetch, hn, try_load_cache, read_cache_meta, hl, get_and_update_cache,
        send_request, hnet, update_cache_from_response, hbody, write_cache, hw]
      rw [if_pos ⟨h200, h299⟩]
    · intro hnot
      simp only [fetch, hn, try_load_cache, read_cache_meta, hl, get_and_update_cache,
        send_request, hnet]
      rw [if_neg hnot]

/-- Witness for C1: a concrete miss followed by a 2xx response is
written back and returned. -/
theorem fetch_hit_and_miss_witness :
    fetch "http://example.com/" 1000
        ⟨[], 7000000, [NetOutcome.response ⟨"http://example.com/", 200, [], some "hi"⟩], [], []⟩ =
      (Except.ok ("hi", headersFromMap []),
       ⟨[("http://example.com/", mkEntry 7000000 (headersFromMap []) "hi")], 7000000, [],
        [], [Req.mk "http://example.com/" none]⟩) := by
  have h := ((fetch_hit_and_miss
      ⟨[], 7000000, [NetOutcome.response ⟨"http://example.com/", 200, [], some "hi"⟩], [], []⟩
      "http://example.com/" "http://example.com/" 1000 rfl).2
      ⟨"http://example.com/", 200, [], some "hi"⟩ [] rfl rfl rfl).1
      "hi" (by decide) (by decide) rfl
  simpa [cacheInsert] using h

/-- C2: with a stale cache entry and a conditional GET answered 304, the
previously cached payload is returned together with the new response's
projected headers; on the way the payload is re-written to the cache
under those new headers, and if that re-write fails the failure is
ignored: the cached payload is still returned successfully (with the
cache left unchanged).  Either way exactly one request is performed,
carrying the stored etag. -/
theorem fetch_stale_not_modified (s : Sys) (rawUrl url : String) (ttl : Int)
    (e : Entry) (oldH : Headers) (text : String) (r : Response)
    (netRest : List NetOutcome)
    (hn : normalizeUrlS rawUrl = some url)
    (hl : cacheLookup s.cache url = some e)
    (hm : e.metaReadable = true)
    (hf : is_fresh (s.nowNs : Int) e.time ttl = false)
    (hh : headersFromJson e.metadata = some oldH)
    (hp : e.payload = some text)
    (hnet : s.net = NetOutcome.response r :: netRest)
    (hst : r.status = 304) :
    (s.writes = [] →
      fetch rawUrl ttl s =
        (Except.ok (text, headersFromMap r.headers),
         { s with net := netRest,
                  log := s.log ++ [Req.mk url oldH.etag],
                  cache := cacheInsert s.cache url
                    (mkEntry s.nowNs (headersFromMap r.headers) text) })) ∧
    (∀ wrest, s.writes = false :: wrest →
      fetch rawUrl ttl s =
        (Except.ok (text, headersFromMap r.headers),
         { s with net := netRest, writes := wrest,
                  log := s.log ++ [Req.mk url oldH.etag] })) := by
  constructor
  · intro hw
    simp [fetch, hn, try_load_cache, read_cache_meta, hl, hm, hf, headers_from_metadata,
      hh, get_and_update_cache, send_request, hnet, hst, touch_and_load_cache, read_cache,
      hp, to_text_and_headers, write_cache, hw]
  · intro wrest hw
    simp [fetch, hn, try_load_cache, read_cache_meta, hl, hm, hf, headers_from_metadata,
      hh, get_and_update_cache, send_request, hnet, hst, touch_and_load_cache, read_cache,
      hp, to_text_and_headers, write_cache, hw]

/-- Witness for C2 at a concrete stale entry, both with a succeeding and
with a failing re-write. -/
theorem fetch_stale_not_modified_witness :
    fetch "http://example.com/" 1000
        ⟨[("http://example.com/", ⟨0, headersToJson ⟨some "static", none, none, none⟩,
            some "cached!", true⟩)], 5000000000000,
         [NetOutcome.response ⟨"http://example.com/", 304, [], none⟩], [], []⟩ =
      (Except.ok ("cached!", headersFromMap []),
       ⟨[("http://example.com/",
          mkEntry 5000000000000 (headersFromMap []) "cached!"),
         ("http://example.com/", ⟨0, headersToJson ⟨some "static", none, none, none⟩,
            some "cached!", true⟩)], 5000000000000, [], [],
        [Req.mk "http://example.com/" (some "static")]⟩) ∧
    fetch "http://example.com/" 1000
        ⟨[("http://example.com/", ⟨0, headersToJson ⟨some "static", none, none, none⟩,
            some "cached!", true⟩)], 5000000000000,
         [NetOutcome.response ⟨"http://example.com/", 304, [], none⟩], [false], []⟩ =
      (Except.ok ("cached!", headersFromMap []),
       ⟨[("http://example.com/", ⟨0, headersToJson ⟨some "static", none, none, none⟩,
            some "cached!", true⟩)], 5000000000000, [], [],
        [Req.mk "http://example.com/" (some "static")]⟩) := by
  constructor
  · have h := (fetch_stale_not_modified
        ⟨[("http://example.com/", ⟨0, headersToJson ⟨some "static", none, none, none⟩,
            some "cached!", true⟩)], 5000000000000,
         [NetOutcome.response ⟨"http://example.com/", 304, [], none⟩], [], []⟩
        "http://example.com/" "http://example.com/" 1000
        ⟨0, headersToJson ⟨some "static", none, none, none⟩, some "cached!", true⟩
        ⟨some "static", none, none, none⟩ "cached!"
        ⟨"http://example.com/", 304, [], none⟩ []
        rfl rfl rfl rfl rfl rfl rfl rfl).1 rfl
    simpa [cacheInsert] using h
  · have h := (fetch_stale_not_modified
        ⟨[("http://example.com/", ⟨0, headersToJson ⟨some "static", none, none, none⟩,
            some "cached!", true⟩)], 5000000000000,
         [NetOutcome.response ⟨"http://example.com/", 304, [], none⟩], [false], []⟩
        "http://example.com/" "http://example.com/" 1000
        ⟨0, headersToJson ⟨some "static", none, none, none⟩, some "cached!", true⟩
        ⟨some "static", none, none, none⟩ "cached!"
        ⟨"http://example.com/", 304, [], none⟩ []
        rfl rfl rfl rfl rfl rfl rfl rfl).2 [] rfl
    simpa using h

/-- C4: every cache-layer error raised while probing turns the request
into a miss handled by one unconditional GET with write-back, whose
outcome (result and state) is exactly what the caller sees; an
unreadable metadata index, an unreadable/corrupt payload of a fresh
entry, and metadata that does not deserialize to `Headers` each raise
such a probe error. -/
theorem fetch_probe_error_is_miss (s : Sys) (rawUrl url : String) (ttl : Int)
    (hn : normalizeUrlS rawUrl = some url) :
    (∀ err, try_load_cache url ttl s = Except.error err →
      fetch rawUrl ttl s = get_and_update_cache url none none s) ∧
    (∀ e, cacheLookup s.cache url = some e → e.metaReadable = false →
      try_load_cache url ttl s = Except.error (Err.cache "reading metadata")) ∧
    (∀ e, cacheLookup s.cache url = some e → e.metaReadable = true →
      is_fresh (s.nowNs : Int) e.time ttl = true → e.payload = none →
      try_load_cache url ttl s = Except.error (Err.cache "reading value")) ∧
    (∀ e text, cacheLookup s.cache url = some e → e.metaReadable = true →
      is_fresh (s.nowNs : Int) e.time ttl = true → e.payload = some text →
      headersFromJson e.metadata = none →
      try_load_cache url ttl s =
        Except.error (Err.deserializing "reading headers from cache. Try clearing the cache.")) ∧
    (get_and_update_cache url none none s).2.log = s.log ++ [Req.mk url none] := by
  refine ⟨?_, ?_, ?_, ?_, get_and_update_cache_log url none none s⟩
  · intro err herr
    simp [fetch, hn, herr]
  · intro e hl hm
    simp [try_load_cache, read_cache_meta, hl, hm]
  · intro e hl hm hf hp
    simp [try_load_cache, read_cache_meta, hl, hm, hf, read_cache, hp]
  · intro e text hl hm hf hp hh
    simp [try_load_cache, read_cache_meta, hl, hm, hf, read_cache, hp,
      to_text_and_headers, hh]

/-- Witness for C4: a concrete entry with undecodable metadata makes the
probe fail, and `fetch` then equals the one unconditional GET. -/
theorem fetch_probe_error_is_miss_witness :
    fetch "http://example.com/" 1000
        ⟨[("http://example.com/", ⟨0, Json.num 7, some "junk", true⟩)], 0,
         [NetOutcome.transport], [], []⟩ =
      get_and_update_cache "http://example.com/" none none
        ⟨[("http://example.com/", ⟨0, Json.num 7, some "junk", true⟩)], 0,
         [NetOutcome.transport], [], []⟩ :=
  (fetch_probe_error_is_miss
      ⟨[("http://example.com/", ⟨0, Json.num 7, some "junk", true⟩)], 0,
       [NetOutcome.transport], [], []⟩
      "http://example.com/" "http://example.com/" 1000 rfl).1
    (Err.deserializing "reading headers from cache. Try clearing the cache.")
    ((fetch_probe_error_is_miss
        ⟨[("http://example.com/", ⟨0, Json.num 7, some "junk", true⟩)], 0,
         [NetOutcome.transport], [], []⟩
        "http://example.com/" "http://example.com/" 1000 rfl).2.2.2.1
      ⟨0, Json.num 7, some "junk", true⟩ "junk" rfl rfl rfl rfl rfl)

/-- C5: only the stale-revalidation path retries.  If the conditional
GET fails with a transport error or with any status other than 304 and
2xx, exactly one retry as an unconditional GET is performed and `fetch`
returns whatever that retry produces (so the error is propagated only if
the retry also fails), and the log shows exactly the conditional then the
unconditional request.  In the miss path a transport or status error is
propagated directly and the log shows exactly one request. -/
theorem fetch_stale_retry_once (s : Sys) (rawUrl url : String) (ttl : Int)
    (hn : normalizeUrlS rawUrl = some url) :
    (∀ e oldH netRest, cacheLookup s.cache url = some e → e.metaReadable = true →
      is_fresh (s.nowNs : Int) e.time ttl = false → headersFromJson e.metadata = some oldH →
      s.net = NetOutcome.transport :: netRest →
      fetch rawUrl ttl s =
        get_and_update_cache url none none
          { s with net := netRest, log := s.log ++ [Req.mk url oldH.etag] } ∧
      (fetch rawUrl ttl s).2.log = s.log ++ [Req.mk url oldH.etag, Req.mk url none]) ∧
    (∀ e oldH r netRest, cacheLookup s.cache url = some e → e.metaReadable = true →
      is_fresh (s.nowNs : Int) e.time ttl = false → headersFromJson e.metadata = some oldH →
      s.net = NetOutcome.response r :: netRest →
      r.status ≠ 304 → ¬ (200 ≤ r.status ∧ r.status ≤ 299) →
      fetch rawUrl ttl s =
        get_and_update_cache url none none
          { s with net := netRest, log := s.log ++ [Req.mk url oldH.etag] } ∧
      (fetch rawUrl ttl s).2.log = s.log ++ [Req.mk url oldH.etag, Req.mk url none]) ∧
    (∀ netRest, cacheLookup s.cache url = none →
      s.net = NetOutcome.transport :: netRest →
      fetch rawUrl ttl s =
        (Except.error Err.reqwest,
         { s with net := netRest, log := s.log ++ [Req.mk url none] })) ∧
    (∀ r netRest, cacheLookup s.cache url = none →
      s.net = NetOutcome.response r :: netRest →
      ¬ (200 ≤ r.status ∧ r.status ≤ 299) →
      fetch rawUrl ttl s =
        (Except.error (Err.nonSuccessStatusCode url r.status),
         { s with net := netRest, log := s.log ++ [Req.mk url none] })) := by
  refine ⟨?_, ?_, ?_, ?_⟩
  · intro e oldH netRest hl hm hf hh hnet
    have hg1 : get_and_update_cache url oldH.etag (some e) s =
        (Except.error Err.reqwest,
         { s with net := netRest, log := s.log ++ [Req.mk url oldH.etag] }) := by
      simp [get_and_update_cache, send_request, hnet]
    have hfe : fetch rawUrl ttl s =
        get_and_update_cache url none none
          { s with net := netRest, log := s.log ++ [Req.mk url oldH.etag] } := by
      simp only [fetch, hn, try_load_cache, read_cache_meta, hl, hm, hf,
        headers_from_metadata, hh, hg1]
      simp [hm, hf, hh, hg1]
    refine ⟨hfe, ?_⟩
    rw [hfe, get_and_update_cache_log]
    simp
  · intro e oldH r netRest hl hm hf hh hnet h304 h2
    have hg1 : get_and_update_cache url oldH.etag (some e) s =
        (Except.error (Err.nonSuccessStatusCode url r.status),
         { s with net := netRest, log := s.log ++ [Req.mk url oldH.etag] }) := by
      simp only [get_and_update_cache, send_request, hnet]
      rw [if_neg h304, if_neg h2]
    have hfe : fetch rawUrl ttl s =
        get_and_update_cache url none none
          { s with net := netRest, log := s.log ++ [Req.mk url oldH.etag] } := by
      simp only [fetch, hn, try_load_cache, read_cache_meta, hl, hm, hf,
        headers_from_metadata, hh, hg1]
      simp [hm, hf, hh, hg1]
    refine ⟨hfe, ?_⟩
    rw [hfe, get_and_update_cache_log]
    simp
  · intro netRest hl hnet
    simp [fetch, hn, try_load_cache, read_cache_meta, hl, get_and_update_cache,
      send_request, hnet]
  · intro r netRest hl hnet h2
    simp only [fetch, hn, try_load_cache, read_cache_meta, hl, get_and_update_cache,
      send_request, hnet]
    rw [if_neg h2]

/-- Witness for C5: a concrete stale entry whose conditional GET hits a
transport error performs exactly the conditional then the unconditional
request. -/
theorem fetch_stale_retry_once_witness :
    (fetch "http://example.com/" 1000
        ⟨[("http://example.com/", ⟨0, headersToJson ⟨some "static", none, none, none⟩,
            some "cached!", true⟩)], 5000000000000,
         [NetOutcome.transport,
          NetOutcome.response ⟨"http://example.com/", 200, [], some "hi"⟩], [],
         []⟩).2.log =
      [Req.mk "http://example.com/" (some "static"), Req.mk "http://example.com/" none] := by
  have h := ((fetch_stale_retry_once
      ⟨[("http://example.com/", ⟨0, headersToJson ⟨some "static", none, none, none⟩,
          some "cached!", true⟩)], 5000000000000,
       [NetOutcome.transport,
        NetOutcome.response ⟨"http://example.com/", 200, [], some "hi"⟩], [], []⟩
      "http://example.com/" "http://example.com/" 1000 rfl).1
      ⟨0, headersToJson ⟨some "static", none, none, none⟩, some "cached!", true⟩
      ⟨some "static", none, none, none⟩
      [NetOutcome.response ⟨"http://example.com/", 200, [], some "hi"⟩]
      rfl rfl rfl rfl rfl).2
  simpa using h

/-- C7: the spec says `is_fresh` equals `now - entry-write-time < ttl`
(true exactly for TTLs strictly above the age).  The code reconstructs
the write instant via `Utc.timestamp(age_ms / 1000, age_ms % 1000)`,
passing the millisecond remainder where nanoseconds are expected, so the
write time is truncated to the whole second: an entry written at
1500 ms, probed at now = 2000 ms (2000000000 ns) with ttl = 600 ms
(600000000 ns) has age 500 ms < ttl and must be fresh per the claim, but
`is_fresh` computes an age of 999999500 ns and classifies it stale. -/
theorem is_fresh_ms_as_ns_divergence :
    is_fresh 2000000000 1500 600000000 = false ∧
    is_fresh_spec_model 2000 1500 600 = true := by
  exact ⟨rfl, rfl⟩

/-- C9: round trip — after a successful `write_cache(headers, url, text)`,
probing the same key yields an entry whose stored payload reads back as
exactly `text` and whose metadata deserializes to a `Headers` value
equal to `headers`. -/
theorem cache_round_trip (s : Sys) (h : Headers) (url text : String)
    (hw : s.writes = []) :
    (write_cache h url text s).1 = Except.ok () ∧
    read_cache_meta url (write_cache h url text s).2 =
      Except.ok (some (mkEntry s.nowNs h text)) ∧
    read_cache (mkEntry s.nowNs h text) = Except.ok text ∧
    headersFromJson (mkEntry s.nowNs h text).metadata = some h := by
  refine ⟨?_, ?_, rfl, headersToJson_roundtrip h⟩
  · simp [write_cache, hw]
  · simp [write_cache, hw, read_cache_meta, cacheLookup, cacheInsert, mkEntry]

/-- Witness for C9 at a concrete state, headers, key and text. -/
theorem cache_round_trip_witness :
    read_cache_meta "u" (write_cache ⟨some "e", some 1, none, none⟩ "u" "t"
        ⟨[], 0, [], [], []⟩).2 =
      Except.ok (some (mkEntry 0 ⟨some "e", some 1, none, none⟩ "t")) ∧
    headersFromJson (mkEntry 0 ⟨some "e", some 1, none, none⟩ "t").metadata =
      some ⟨some "e", some 1, none, none⟩ :=
  ⟨(cache_round_trip ⟨[], 0, [], [], []⟩ ⟨some "e", some 1, none, none⟩ "u" "t" rfl).2.1,
   (cache_round_trip ⟨[], 0, [], [], []⟩ ⟨some "e", some 1, none, none⟩ "u" "t" rfl).2.2.2⟩

/-- C10: `Fetchable::fetch` never reaches the panic inside
`assume_fetched`; in the `Fetched` state it returns the stored value and
leaves the state alone (for every closure, which is therefore not
consulted); in the `None` state a successful closure result is stored
and returned, and a closure error is returned with the state still
`None`. -/
theorem fetchable_fetch_no_panic {T : Type} (v : Fetchable T) (f : Unit → Except Err T) :
    (Fetchable.fetch v f).isSome = true ∧
    (∀ x, v = Fetchable.fetched x → Fetchable.fetch v f = some (Except.ok x, v)) ∧
    (∀ x, v = Fetchable.none → f () = Except.ok x →
      Fetchable.fetch v f = some (Except.ok x, Fetchable.fetched x)) ∧
    (∀ e, v = Fetchable.none → f () = Except.error e →
      Fetchable.fetch v f = some (Except.error e, Fetchable.none)) := by
  refine ⟨?_, ?_, ?_, ?_⟩
  · cases v with
    | fetched x => rfl
    | none =>
      cases hf : f () with
      | ok x => simp [Fetchable.fetch, hf, Fetchable.assume_fetched]
      | error e => simp [Fetchable.fetch, hf]
  · rintro x rfl
    rfl
  · rintro x rfl hf
    simp [Fetchable.fetch, hf, Fetchable.assume_fetched]
  · rintro e rfl hf
    simp [Fetchable.fetch, hf]

/-- Witness for C10: both the `Fetched` and the `None`-success cases at
concrete values. -/
theorem fetchable_fetch_no_panic_witness :
    Fetchable.fetch (Fetchable.fetched 5) (fun _ => Except.ok 7) =
      some (Except.ok 5, Fetchable.fetched 5) ∧
    Fetchable.fetch (Fetchable.none (T := Nat)) (fun _ => Except.ok 7) =
      some (Except.ok 7, Fetchable.fetched 7) :=
  ⟨(fetchable_fetch_no_panic (Fetchable.fetched 5) (fun _ => Except.ok 7)).2.1 5 rfl,
   (fetchable_fetch_no_panic Fetchable.none (fun _ => Except.ok 7)).2.2.1 7 rfl rfl⟩

/-- C6: one step of `PaginatedList`: with no pending URL, `next` yields
nothing and changes nothing; after a successful fetch the pending URL
becomes the response's `next_page` exactly when
`this_page.unwrap_or(0) < last_page.unwrap_or(0)` and the batch is
non-empty (an empty batch leaves the iterator finished regardless of the
page-count headers); a fetch error is yielded once and leaves no pending
URL, so no further page is ever attempted. -/
theorem paginated_next_step (F : String → Int → Except Err PageData) (pl : PaginatedList) :
    (pl.next_page = none → PaginatedList.next F pl = (none, pl)) ∧
    (∀ curr pd, pl.next_page = some curr → F curr pl.ttl = Except.ok pd →
      PaginatedList.next F pl =
        (some (Except.ok pd.val),
         { pl with next_page :=
             if pd.this_page.getD 0 < pd.last_page.getD 0 ∧ pd.val ≠ [] then pd.next_page
             else none })) ∧
    (∀ curr pd, pl.next_page = some curr → F curr pl.ttl = Except.ok pd → pd.val = [] →
      (PaginatedList.next F pl).2.next_page = none) ∧
    (∀ curr e, pl.next_page = some curr → F curr pl.ttl = Except.error e →
      PaginatedList.next F pl = (some (Except.error e), { pl with next_page := none })) := by
  refine ⟨?_, ?_, ?_, ?_⟩
  · intro hn
    simp [PaginatedList.next, hn]
  · intro curr pd hn hf
    simp only [PaginatedList.next, hn, hf]
    by_cases hlt : pd.this_page.getD 0 < pd.last_page.getD 0
    · by_cases hv : pd.val = []
      · simp [hlt, hv]
      · simp [hlt, hv]
    · simp [hlt]
  · intro curr pd hn hf hv
    simp [PaginatedList.next, hn, hf, hv]
  · intro curr e hn hf
    simp [PaginatedList.next, hn, hf]

/-- Witness for C6: a successful page with `this_page < last_page` and a
non-empty batch re-arms the pending URL with the `next_page` header. -/
theorem paginated_next_step_witness :
    PaginatedList.next (fun _ _ => Except.ok ⟨[1, 2], some 1, some "u2", some 3⟩)
        ⟨some "u1", 5⟩ =
      (some (Except.ok [1, 2]), ⟨some "u2", 5⟩) := by
  have h := (paginated_next_step
      (fun _ _ => Except.ok ⟨[1, 2], some 1, some "u2", some 3⟩) ⟨some "u1", 5⟩).2.1
      "u1" ⟨[1, 2], some 1, some "u2", some 3⟩ rfl rfl
  simpa using h

end Mensa
